import Mathlib

/-!
Verification of the multi-source entity annotation engine
(`mindmeld/auto_annotator.py`) against its specification.

The Python code is shallowly embedded: entity dictionaries become
structures, in-place mutation of a dictionary becomes a functional
update, implicit `return None` becomes `Option.none`, and loops that
append to lists become `List.foldl` with an accumulator, mirroring
iteration order.  External collaborators that live outside the given
sources (the regex engine, the duckling service, the markup codec, the
`_no_overlap` / `Span.has_overlap` primitives from `constants.py` /
`core.py`, and the `ANNOTATOR_TO_SYS_ENTITY_MAPPINGS` table) are either
taken as parameters or modelled from the spec, as marked on each
definition.
-/

namespace Mindmeld

/-- Inclusive character span of a query entity (`core.Span`): `start` and
`end` offsets (`end` is a Lean keyword, so the field is called `stop`). -/
structure Span where
  start : Int
  stop : Int
deriving DecidableEq

/-- A query entity as conflict resolution and unannotation observe it:
its span and its entity type (`QueryEntity.span`, `QueryEntity.entity.type`). -/
structure QEntity where
  span : Span
  etype : String
deriving DecidableEq

/-- Modelled from the spec: the predicate `_no_overlap` imported from
`constants.py` (not among the given sources).  Per section 4.1, two spans
fail to overlap exactly when one starts strictly after the other ends. -/
def no_overlap (a b : QEntity) : Bool :=
  decide (a.span.start > b.span.stop) || decide (b.span.start > a.span.stop)

/-- Embedding of `Annotator._resolve_conflicts`: pick `base`/`other`
according to the `overwrite` flag from the config, keep each `other`
entity that overlaps no `base` entity (the inner list-comprehension and
`all(...)`), and extend `base` with the survivors. -/
def resolve_conflicts (current_entities annotated_entities : List QEntity)
    (overwrite : Bool) : List QEntity :=
  let base_entities := if overwrite then annotated_entities else current_entities
  let other_entities := if overwrite then current_entities else annotated_entities
  let additional_entities := other_entities.foldl
    (fun acc o =>
      if base_entities.all (fun b => no_overlap o b) then acc ++ [o] else acc)
    []
  base_entities ++ additional_entities

/-- Embedding of `Annotator.valid_entity_check`: lower-case and strip the
name, then test membership in the annotator's supported entity types.
Python's `str.lower`/`str.strip` are modelled character-wise. -/
def valid_entity_check (supported : List String) (entity : String) : Bool :=
  let entity := String.mk
    ((((entity.toList.map Char.toLower).dropWhile Char.isWhitespace).reverse.dropWhile
        Char.isWhitespace).reverse)
  supported.contains entity

/-- Embedding of `Annotator._unannotate_query` on the entity tuple of one
processed query: the loop that builds `keep_entities`.  With the wildcard
removal set an entity is kept only when `remove_supported_only` is set and
the entity type is not supported; with an explicit removal set an entity
is kept exactly when its type is not listed. -/
def unannotate_query (entities : List QEntity) (remove_entities : List String)
    (remove_supported_only : Bool) (supported : List String) : List QEntity :=
  entities.foldl
    (fun keep qe =>
      if remove_entities = ["*"] then
        if remove_supported_only && !(valid_entity_check supported qe.etype) then
          keep ++ [qe]
        else keep
      else
        if !(remove_entities.contains qe.etype) then keep ++ [qe] else keep)
    []

/-- An annotate/unannotate rule as found in the config: the four pattern
fields of the rule dictionary. -/
structure ARule where
  domains : String
  intents : String
  files : String
  entities : String
deriving DecidableEq

/-- Embedding of `Annotator._get_pattern`: join the `domains`, `intents`
and `files` fields into the path regex source string. -/
def get_pattern (r : ARule) : String :=
  ".*/" ++ r.domains ++ "/" ++ r.intents ++ "/" ++ r.files

/-- Python `str.strip` modelled character-wise (whitespace both ends). -/
def pyStrip (s : String) : String :=
  String.mk (((s.toList.dropWhile Char.isWhitespace).reverse.dropWhile
      Char.isWhitespace).reverse)

/-- Python `str.split(sep)` for a one-character separator, modelled on the
character list. -/
def splitChar (sep : Char) : List Char → List (List Char)
  | [] => [[]]
  | c :: rest =>
    match splitChar sep rest with
    | [] => if c = sep then [[], []] else [[c]]
    | g :: gs => if c = sep then [] :: g :: gs else (c :: g) :: gs

/-- Embedding of `Annotator._get_entities`: the wildcard tokens yield the
sentinel `["*"]`; otherwise parentheses are removed (`re.sub("[()]", "")`),
the string is split on `|`, each token is stripped, and only tokens passing
`valid_entity_check` are kept (invalid ones are logged and dropped). -/
def get_entities (supported : List String) (r : ARule) : List String :=
  if pyStrip r.entities = "*" ∨ pyStrip r.entities = ".*" ∨ pyStrip r.entities = ".+" then
    ["*"]
  else
    let toks := (splitChar '|'
        (r.entities.toList.filter (fun c => ¬(c = '(' ∨ c = ')')))).map String.mk
    toks.foldl
      (fun acc t =>
        let t := pyStrip t
        if valid_entity_check supported t then acc ++ [t] else acc)
      []

/-- Embedding of `Annotator._get_file_entities_map`.  The regex engine and
`ResourceLoader.filter_file_paths` are outside the given sources, so path
matching is a parameter `matchp pattern path`.  Every known path starts at
the empty entity list; each rule, in declaration order, overwrites the
entry of every path its pattern matches with that rule's entities. -/
def get_file_entities_map (matchp : String → String → Bool)
    (supported : List String) (all_paths : List String)
    (rules : List ARule) : List (String × List String) :=
  rules.foldl
    (fun m r =>
      m.map (fun pe =>
        if matchp (get_pattern r) pe.1 then (pe.1, get_entities supported r) else pe))
    (all_paths.map (fun p => (p, ([] : List String))))

/-- A Python number as duckling resolutions carry it: either an `int` or a
`float` (the latter modelled as a rational). -/
inductive PyNum where
  | int (n : Int)
  | float (q : Rat)
deriving DecidableEq

/-- The resolved-value dictionary of a duckling candidate: its `"type"`
field (relevant for time candidates) and its `"value"` field (relevant for
numeric candidates). -/
structure DuckVal where
  vtype : String
  value : PyNum
deriving DecidableEq

/-- The value slot of a working entity dictionary: the initial
`{"value": text}` wrapper, a numeric resolution, or an adopted duckling
resolved value. -/
inductive EValue where
  | str (s : String)
  | num (q : Rat)
  | duck (v : DuckVal)
deriving DecidableEq

/-- A working entity dictionary inside `SpacyAnnotator.parse`, with keys
`body`, `start`, `end` (here `stop`), `value`, `dim`. -/
structure SEntity where
  body : String
  start : Int
  stop : Int
  value : EValue
  dim : String
deriving DecidableEq

/-- A duckling candidate dictionary as returned by
`get_candidates_for_text`: `dim`, `body`, `start`, `end` (here `stop`),
`value` and `entity_type`. -/
structure Candidate where
  dim : String
  body : String
  start : Int
  stop : Int
  value : DuckVal
  entity_type : String
deriving DecidableEq

/-- Embedding of `SpacyAnnotator._get_time_entity_type`: `duration`
candidates map to `sys_duration`; `time` candidates map to `sys_interval`
when their value is an interval and to `sys_time` otherwise; any other
dimension falls through (Python returns `None`). -/
def get_time_entity_type (c : Candidate) : Option String :=
  if c.dim = "duration" then some "sys_duration"
  else if c.dim = "time" then
    if c.value.vtype = "interval" then some "sys_interval" else some "sys_time"
  else none

/-- Embedding of `SpacyAnnotator._resolve_time_exact_match`: the first
candidate (in returned order) whose classified type is allowed and whose
body equals the entity body wins; it rewrites `dim` and `value`. -/
def resolve_time_exact_match (e : SEntity) (candidates : List Candidate)
    (time_entities : List String) : Option SEntity :=
  match candidates with
  | [] => none
  | c :: rest =>
    match get_time_entity_type c with
    | some t =>
      if time_entities.contains t ∧ c.body = e.body then
        some { e with dim := t, value := .duck c.value }
      else resolve_time_exact_match e rest time_entities
    | none => resolve_time_exact_match e rest time_entities

/-- Python substring containment `needle in hay` on character lists. -/
def subOccurs : List Char → List Char → Bool
  | needle, [] => needle.isEmpty
  | needle, c :: rest => needle.isPrefixOf (c :: rest) || subOccurs needle rest

/-- Python substring containment `needle in hay` for strings. -/
def substrB (needle hay : String) : Bool :=
  subOccurs needle.toList hay.toList

/-- Classification of a candidate inside `_resolve_largest_substring`:
time-related entities go through `_get_time_entity_type`, everything else
reads the candidate's `entity_type` field. -/
def candClass (is_time_related : Bool) (c : Candidate) : Option String :=
  if is_time_related then get_time_entity_type c else some c.entity_type

/-- A candidate matches a tier when it classifies to that entity type and
its body is a substring of the entity's body (the two membership tests of
the `_resolve_largest_substring` loop condition). -/
def substr_match (e : SEntity) (is_time_related : Bool) (t : String)
    (c : Candidate) : Prop :=
  candClass is_time_related c = some t ∧ substrB c.body e.body = true

instance substr_match_dec (e : SEntity) (is_time_related : Bool) (t : String)
    (c : Candidate) : Decidable (substr_match e is_time_related t c) :=
  inferInstanceAs (Decidable (_ ∧ _))

/-- The inner candidate loop of `SpacyAnnotator._resolve_largest_substring`
for one entity type `t`: the accumulator holds the largest matching
candidate seen so far together with its resolved entity type, and is
replaced only by a strictly longer matching candidate. -/
def scan_tier (e : SEntity) (t : String) (is_time_related : Bool)
    (acc : Option (Candidate × String)) : List Candidate → Option (Candidate × String)
  | [] => acc
  | c :: rest =>
    let ce := candClass is_time_related c
    let better : Bool :=
      match acc with
      | none => true
      | some lc => decide (lc.1.body.length < c.body.length)
    let acc' :=
      if decide (ce = some t) && substrB c.body e.body && better then some (c, t)
      else acc
    scan_tier e t is_time_related acc' rest

/-- Embedding of `SpacyAnnotator._resolve_largest_substring`: scan the
entity types in order with the shared `largest_candidate` accumulator; on
success rewrite body, offset the candidate-local span by the entity's
original start, and adopt the candidate's value and the resolved type. -/
def resolve_largest_substring (e : SEntity) (candidates : List Candidate)
    (entity_types : List String) (is_time_related : Bool) : Option SEntity :=
  match entity_types.foldl (fun acc t => scan_tier e t is_time_related acc candidates)
      none with
  | none => none
  | some lc =>
    some { e with
      body := lc.1.body,
      start := e.start + lc.1.start,
      stop := e.start + lc.1.stop,
      value := .duck lc.1.value,
      dim := lc.2 }

/-- Embedding of `SpacyAnnotator._resolve_time_date`: with no candidates
the entity is dropped; the three time types are filtered by the requested
entity types when that list is non-empty (Python truthiness); then exact
match is tried before the largest-substring fallback. -/
def resolve_time_date (e : SEntity) (candidates : List Candidate)
    (entity_types : Option (List String)) : Option SEntity :=
  if candidates.isEmpty then none
  else
    let time_entities := ["sys_duration", "sys_interval", "sys_time"]
    let time_entities :=
      match entity_types with
      | some ets => if ets.isEmpty then time_entities
                    else time_entities.filter (fun t => ets.contains t)
      | none => time_entities
    match resolve_time_exact_match e candidates time_entities with
    | some e' => some e'
    | none => resolve_largest_substring e candidates time_entities true

/-- Largest matching candidate within a single type tier, longest first and
first-seen on ties; used only to state the claim's per-tier reading of the
fallback, following the spec's words. -/
def tier_largest (e : SEntity) (is_time_related : Bool)
    (candidates : List Candidate) (t : String) : Option Candidate :=
  candidates.foldl
    (fun acc c =>
      let better : Bool :=
        match acc with
        | none => true
        | some lc => decide (lc.body.length < c.body.length)
      if decide (candClass is_time_related c = some t) && substrB c.body e.body && better then
        some c
      else acc)
    none

/-- The largest-substring fallback as the claim states it, following the
spec's words: proceed tier by tier in priority order and let the first
tier containing a match decide, keeping that tier's longest matching
candidate; compare with `resolve_largest_substring`, which is translated
from the source. -/
def resolve_largest_substring_tiered (e : SEntity) (candidates : List Candidate)
    (entity_types : List String) (is_time_related : Bool) : Option SEntity :=
  match entity_types with
  | [] => none
  | t :: rest =>
    match tier_largest e is_time_related candidates t with
    | some c =>
      some { e with
        body := c.body,
        start := e.start + c.start,
        stop := e.start + c.stop,
        value := .duck c.value,
        dim := t }
    | none => resolve_largest_substring_tiered e candidates rest is_time_related

/-- Modelled from the spec: the `ANNOTATOR_TO_SYS_ENTITY_MAPPINGS` table
from `constants.py` (not among the given sources).  Cardinals map to
`sys_number`, money to `sys_amount-of-money`, and every other label to its
canonical `sys_` form (section 4.5). -/
def annotator_to_sys (label : String) : String :=
  if label = "cardinal" then "sys_number"
  else if label = "money" then "sys_amount-of-money"
  else "sys_" ++ label

/-- One possible outcome of `_resolve_percent`: the entity is dropped
(Python `return None`), resolved, or the call raises `ValueError` (Python
`max` over an empty sequence). -/
inductive PercentOut where
  | dropped
  | resolved (e : SEntity)
  | valueError
deriving DecidableEq

/-- The candidate loop of `SpacyAnnotator._resolve_percent`: the first
float-valued `sys_number` candidate resolves immediately with its value
divided by 100; integer values accumulate in `possible_values`, whose
maximum (divided by 100) resolves after the loop — `max` on an empty
`possible_values` list raises `ValueError`. -/
def percent_loop (e : SEntity) : List Candidate → List Int → PercentOut
  | [], possible_values =>
    match possible_values.max? with
    | some m => .resolved { e with value := .num ((m : Rat) / 100) }
    | none => .valueError
  | c :: rest, possible_values =>
    if c.entity_type = "sys_number" then
      match c.value.value with
      | .float q => .resolved { e with value := .num (q / 100) }
      | .int n => percent_loop e rest (possible_values ++ [n])
    else percent_loop e rest possible_values

/-- Embedding of `SpacyAnnotator._resolve_percent`: retype to
`sys_percent`, drop the entity when there are no candidates at all, and
otherwise run the candidate loop. -/
def resolve_percent (e : SEntity) (candidates : List Candidate) : PercentOut :=
  let e := { e with dim := annotator_to_sys e.dim }
  if candidates.isEmpty then .dropped
  else percent_loop e candidates []

/-- The exact-match scan of `SpacyAnnotator._resolve_quantity` for one raw
entity type: the first candidate with that `dim` and the exact entity body
wins, adopting the candidate value and the mapped system type. -/
def quantity_exact_scan (e : SEntity) (t : String) : List Candidate → Option SEntity
  | [] => none
  | c :: rest =>
    if c.dim = t ∧ c.body = e.body then
      some { e with value := .duck c.value, dim := annotator_to_sys t }
    else quantity_exact_scan e t rest

/-- The two exact-match tiers of `_resolve_quantity`, distance before
generic quantity. -/
def quantity_exact (e : SEntity) (candidates : List Candidate) : Option SEntity :=
  match quantity_exact_scan e "distance" candidates with
  | some e' => some e'
  | none => quantity_exact_scan e "quantity" candidates

/-- Embedding of `SpacyAnnotator._resolve_quantity`: with no candidates the
entity is immediately retyped `sys_other-quantity`; otherwise exact match
(distance before quantity), then the largest-substring fallback over the
same two types, then the `sys_other-quantity` fallback — every branch
returns an entity. -/
def resolve_quantity (e : SEntity) (candidates : List Candidate) : Option SEntity :=
  if candidates.isEmpty then some { e with dim := "sys_other-quantity" }
  else
    match quantity_exact e candidates with
    | some e' => some e'
    | none =>
      match resolve_largest_substring e candidates ["distance", "quantity"] false with
      | some e' => some e'
      | none => some { e with dim := "sys_other-quantity" }

/-- The English language code constant (`ENGLISH_LANGUAGE_CODE`). -/
def ENGLISH_LANGUAGE_CODE : String := "en"

/-- Embedding of `SpacyAnnotator._resolve_person`: retype via the mapping
table; in English, an entity body of length at least 2 ending in the
possessive marker has the marker stripped from value, body, and the end
offset; every path returns the entity. -/
def resolve_person (language : String) (e : SEntity) : SEntity :=
  let e := { e with dim := annotator_to_sys e.dim }
  if language = ENGLISH_LANGUAGE_CODE then
    if 2 ≤ e.body.length ∧ e.body.takeRight 2 = "\x27s" then
      { e with
        value := .str (e.body.dropRight 2),
        body := e.body.dropRight 2,
        stop := e.stop - 2 }
    else e
  else e

/-- Modelled from the spec: `Span.has_overlap` from `core.py` (not among
the given sources); per section 4.1 two spans overlap unless one starts
strictly after the other ends. -/
def has_overlap (a b : Span) : Bool :=
  !(decide (a.start > b.stop) || decide (b.start > a.stop))

/-- Stable insertion of a span into a list sorted descending by
`(start, stop)`: the span passes every strictly larger span, so equal
spans keep their original relative order. -/
def insertDesc (s : Span) : List Span → List Span
  | [] => [s]
  | t :: rest =>
    if s.start < t.start ∨ (s.start = t.start ∧ s.stop < t.stop) then
      t :: insertDesc s rest
    else s :: t :: rest

/-- Modelled from the spec: Python's stable `spans.sort(reverse=True)`
over `core.Span` values, which orders spans by `(start, end)`; realised as
a stable insertion sort producing the descending order. -/
def sortSpansDesc : List Span → List Span
  | [] => []
  | s :: rest => insertDesc s (sortSpansDesc rest)

/-- Embedding of
`NoTranslationDucklingAnnotator._get_largest_non_overlapping_candidates`:
sort the spans descending, then greedily keep each span that overlaps none
of the already selected spans. -/
def get_largest_non_overlapping (spans : List Span) : List Span :=
  (sortSpansDesc spans).foldl
    (fun selected s =>
      if selected.any (fun t => has_overlap s t) then selected else selected ++ [s])
    []

/-- Embedding of `Annotator._get_processed_queries` over the lines of one
file.  The markup codec `load_query` is outside the given sources and is
modelled from the spec as a parameter returning `Except`: a line parses to
an example or fails with a markup error, in which case it is logged and
skipped while the loop continues. -/
def get_processed_queries {α : Type} (parse : String → Except String α)
    (lines : List String) : List α :=
  lines.foldl
    (fun acc q =>
      match parse q with
      | Except.ok e => acc ++ [e]
      | Except.error _ => acc)
    []

/-- The wildcard rule installed by `Annotator.unannotate` when it is called
with `unannotate_all=True`. -/
def wildcard_rule : ARule :=
  { domains := ".*", intents := ".*", files := ".*", entities := ".*" }

/-- The configuration slice `Annotator.unannotate` reads: the rule list and
the supported-entities-only flag. -/
structure AConfig where
  unannotate_rules : List ARule
  unannotate_supported_entities_only : Bool
deriving DecidableEq

/-- The keyword handling of `Annotator.unannotate`: `unannotate_all=True`
replaces the rule list with the single all-wildcard rule and forces the
supported-entities-only flag to `False`. -/
def apply_unannotate_all (config : AConfig) (unannotate_all : Bool) : AConfig :=
  if unannotate_all then
    { unannotate_rules := [wildcard_rule], unannotate_supported_entities_only := false }
  else config

/-- Embedding of the unannotate arm of `Annotator._modify_queries`: skip
paths whose mapped entity list is empty, and rewrite every processed
query's entity tuple through `_unannotate_query`.  The parsed queries of a
path are supplied by `queriesOf`. -/
def modify_queries_unannotate (supported : List String)
    (fmap : List (String × List String))
    (queriesOf : String → List (List QEntity))
    (remove_supported_only : Bool) : List (String × List (List QEntity)) :=
  (fmap.filter (fun pe => !pe.2.isEmpty)).map
    (fun pe =>
      (pe.1,
        (queriesOf pe.1).map
          (fun ents => unannotate_query ents pe.2 remove_supported_only supported)))

/-- Embedding of `Annotator.unannotate`: apply the keyword handling, warn
and do nothing (`none`) when the rule list is empty, and otherwise build
the file-entities map and run the unannotate arm of `_modify_queries`. -/
def unannotate_run (matchp : String → String → Bool) (supported : List String)
    (all_paths : List String) (queriesOf : String → List (List QEntity))
    (config : AConfig) (unannotate_all : Bool) :
    Option (List (String × List (List QEntity))) :=
  let config := apply_unannotate_all config unannotate_all
  if config.unannotate_rules.isEmpty then none
  else
    some (modify_queries_unannotate supported
      (get_file_entities_map matchp supported all_paths config.unannotate_rules)
      queriesOf config.unannotate_supported_entities_only)

/-- The raw spacy time entity of the spec's temporal example, with body
`nearly 15 minutes` starting at offset 3 of its sentence. -/
def nearly15 : SEntity :=
  { body := "nearly 15 minutes", start := 3, stop := 20,
    value := .str "nearly 15 minutes", dim := "time" }

/-- A duration candidate with body `15`, local span 7 to 9. -/
def cand_dur_2 : Candidate :=
  { dim := "duration", body := "15", start := 7, stop := 9,
    value := { vtype := "value", value := .int 15 }, entity_type := "sys_duration" }

/-- A plain time candidate with body `15 minutes`, local span 7 to 17. -/
def cand_time_10 : Candidate :=
  { dim := "time", body := "15 minutes", start := 7, stop := 17,
    value := { vtype := "value", value := .int 0 }, entity_type := "sys_time" }

/-- A duration candidate with body `15 minutes`, local span 7 to 17. -/
def cand_dur_10 : Candidate :=
  { dim := "duration", body := "15 minutes", start := 7, stop := 17,
    value := { vtype := "value", value := .int 15 }, entity_type := "sys_duration" }

/-- A raw percent entity (the spec's percent example). -/
def pct_e : SEntity :=
  { body := "50.5%", start := 0, stop := 5, value := .str "50.5%", dim := "percent" }

/-- A candidate that is not a `sys_number` (a time candidate). -/
def pct_cand_time : Candidate :=
  { dim := "time", body := "50", start := 0, stop := 2,
    value := { vtype := "value", value := .int 50 }, entity_type := "sys_time" }

/-- A fractional `sys_number` candidate with value 50.5. -/
def pct_cand_float : Candidate :=
  { dim := "number", body := "50.5", start := 0, stop := 4,
    value := { vtype := "value", value := .float (101 / 2) }, entity_type := "sys_number" }

/-- An integer `sys_number` candidate with value 50. -/
def pct_cand_50 : Candidate :=
  { dim := "number", body := "fifty", start := 0, stop := 5,
    value := { vtype := "value", value := .int 50 }, entity_type := "sys_number" }

/-- An integer `sys_number` candidate with value 30. -/
def pct_cand_30 : Candidate :=
  { dim := "number", body := "thirty", start := 6, stop := 12,
    value := { vtype := "value", value := .int 30 }, entity_type := "sys_number" }

/-- A raw quantity entity with body `3 km`. -/
def qty_e : SEntity :=
  { body := "3 km", start := 0, stop := 4, value := .str "3 km", dim := "quantity" }

/-- A distance candidate exactly matching the body `3 km`. -/
def qty_c : Candidate :=
  { dim := "distance", body := "3 km", start := 0, stop := 4,
    value := { vtype := "value", value := .int 3 }, entity_type := "sys_distance" }

/-- Helper: a fold that conditionally appends each element is the filter of
the traversed list, appended to the initial accumulator. -/
theorem foldl_keep_eq_filter {α : Type} (p : α → Bool) :
    ∀ (l init : List α),
      l.foldl (fun acc o => if p o then acc ++ [o] else acc) init
        = init ++ l.filter p := by
  intro l
  induction l with
  | nil => intro init; simp
  | cons x xs ih =>
    intro init
    by_cases h : p x = true
    · simp [List.foldl_cons, h, ih]
    · simp [List.foldl_cons, h, ih]

/-- Helper: `no_overlap` is symmetric. -/
theorem no_overlap_comm (a b : QEntity) : no_overlap a b = no_overlap b a := by
  simp [no_overlap, Bool.or_comm]

/-- Helper: the survivor loop of `_resolve_conflicts` is a filter. -/
theorem resolve_conflicts_eq (current annotated : List QEntity) (overwrite : Bool) :
    resolve_conflicts current annotated overwrite =
      (if overwrite then annotated else current) ++
        (if overwrite then current else annotated).filter
          (fun o => (if overwrite then annotated else current).all
            (fun b => no_overlap o b)) := by
  simp only [resolve_conflicts]
  rw [foldl_keep_eq_filter
    (fun o => (if overwrite then annotated else current).all (fun b => no_overlap o b))]
  simp

/-- Claim C1: `_resolve_conflicts` designates `base = candidate if
overwrite else current` and `other` as the remaining list, and returns
`base` followed by exactly the entities of `other` overlapping no `base`
entity, input order preserved in each segment; with `overwrite = true` and
an empty candidate list the result is `current` unchanged, and with
pairwise disjoint inputs it is the union of both, base first. -/
theorem resolve_conflicts_spec (current candidate : List QEntity) (overwrite : Bool) :
    (resolve_conflicts current candidate overwrite =
      (if overwrite then candidate else current) ++
        (if overwrite then current else candidate).filter
          (fun o => (if overwrite then candidate else current).all
            (fun b => no_overlap o b))) ∧
    resolve_conflicts current [] true = current ∧
    ((∀ c ∈ current, ∀ a ∈ candidate, no_overlap c a = true) →
      resolve_conflicts current candidate overwrite =
        (if overwrite then candidate else current) ++
          (if overwrite then current else candidate)) := by
  refine ⟨resolve_conflicts_eq current candidate overwrite, ?_, ?_⟩
  · rw [resolve_conflicts_eq]
    simp
  · intro hdisj
    rw [resolve_conflicts_eq]
    cases overwrite with
    | true =>
      simp only [if_true]
      congr 1
      rw [List.filter_eq_self]
      intro c hc
      simp only [List.all_eq_true]
      intro a ha
      exact hdisj c hc a ha
    | false =>
      simp only [Bool.false_eq_true, if_false]
      congr 1
      rw [List.filter_eq_self]
      intro a ha
      simp only [List.all_eq_true]
      intro c hc
      rw [no_overlap_comm]
      exact hdisj c hc a ha

/-- Witness for C1 at a concrete disjoint pair of entity lists. -/
theorem resolve_conflicts_spec_w :
    resolve_conflicts [⟨⟨0, 3⟩, "a"⟩] [⟨⟨5, 8⟩, "b"⟩] true =
      [⟨⟨5, 8⟩, "b"⟩, ⟨⟨0, 3⟩, "a"⟩] :=
  ((resolve_conflicts_spec [⟨⟨0, 3⟩, "a"⟩] [⟨⟨5, 8⟩, "b"⟩] true).2.2
    (by decide)).trans (by decide)

/-- Helper: `_unannotate_query` keeps exactly the entities passing the
branch conditions of its loop. -/
theorem unannotate_query_eq_filter (entities : List QEntity)
    (remove_entities : List String) (rso : Bool) (supported : List String) :
    unannotate_query entities remove_entities rso supported =
      entities.filter
        (fun qe =>
          if remove_entities = ["*"] then
            rso && !(valid_entity_check supported qe.etype)
          else !(remove_entities.contains qe.etype)) := by
  simp only [unannotate_query]
  by_cases hw : remove_entities = ["*"]
  · simp only [hw, if_true]
    exact (foldl_keep_eq_filter
      (fun (qe : QEntity) => rso && !(valid_entity_check supported qe.etype))
      entities []).trans (by simp)
  · simp only [if_neg hw]
    exact (foldl_keep_eq_filter
      (fun (qe : QEntity) => !(remove_entities.contains qe.etype))
      entities []).trans (by simp)

/-- Claim C2: under the wildcard sentinel an entity is kept iff the
remove-supported-only flag is set and its type is not supported; under an
explicit list an entity is removed iff its type is listed, regardless of
the flag; and the spec's end-to-end example keeps exactly `sys_number`. -/
theorem unannotate_query_spec (entities : List QEntity)
    (remove_entities : List String) (rso : Bool) (supported : List String) :
    (unannotate_query entities ["*"] rso supported =
      entities.filter (fun qe => rso && !(valid_entity_check supported qe.etype))) ∧
    (remove_entities ≠ ["*"] →
      unannotate_query entities remove_entities rso supported =
        entities.filter (fun qe => !(remove_entities.contains qe.etype))) ∧
    unannotate_query [⟨⟨0, 3⟩, "sys_time"⟩, ⟨⟨5, 8⟩, "sys_number"⟩] ["*"] true
        ["sys_time"] = [⟨⟨5, 8⟩, "sys_number"⟩] := by
  refine ⟨?_, ?_, by decide⟩
  · rw [unannotate_query_eq_filter]
    simp
  · intro h
    rw [unannotate_query_eq_filter]
    simp [h]

/-- Witness for C2 at a concrete explicit removal list. -/
theorem unannotate_query_spec_w :
    unannotate_query [⟨⟨0, 3⟩, "sys_time"⟩, ⟨⟨5, 8⟩, "sys_number"⟩] ["sys_time"]
        true [] = [⟨⟨5, 8⟩, "sys_number"⟩] :=
  ((unannotate_query_spec [⟨⟨0, 3⟩, "sys_time"⟩, ⟨⟨5, 8⟩, "sys_number"⟩]
    ["sys_time"] true []).2.1 (by decide)).trans (by decide)

/-- Helper: the query loop of `_get_processed_queries` collects exactly the
successful parses, in order, after the initial accumulator. -/
theorem foldl_except_eq_filterMap {α : Type} (parse : String → Except String α) :
    ∀ (lines : List String) (init : List α),
      lines.foldl
        (fun acc q =>
          match parse q with
          | Except.ok e => acc ++ [e]
          | Except.error _ => acc)
        init
      = init ++ lines.filterMap (fun q => (parse q).toOption) := by
  intro lines
  induction lines with
  | nil => intro init; simp
  | cons q qs ih =>
    intro init
    cases h : parse q <;>
      simp [List.foldl_cons, h, ih, Except.toOption]

/-- Claim C7: `_get_processed_queries` returns exactly the successfully
parsed lines in original order; a line failing with a markup error is
dropped from the output and the remaining lines are still processed. -/
theorem get_processed_queries_spec {α : Type} (parse : String → Except String α)
    (lines : List String) :
    get_processed_queries parse lines =
      lines.filterMap (fun q => (parse q).toOption) := by
  unfold get_processed_queries
  rw [foldl_except_eq_filterMap]
  simp

/-- Claim C9: `_resolve_person` always returns an entity; in English a body
ending in the possessive marker is stripped in value, body and end offset
(end reduced by 2), and otherwise the entity passes through with body,
span and value unchanged (only the type is mapped). -/
theorem resolve_person_spec (language : String) (e : SEntity) :
    (language = "en" → 2 ≤ e.body.length → e.body.takeRight 2 = "\x27s" →
      resolve_person language e =
        { e with
          value := .str (e.body.dropRight 2),
          body := e.body.dropRight 2,
          stop := e.stop - 2,
          dim := annotator_to_sys e.dim }) ∧
    (language = "en" → ¬(2 ≤ e.body.length ∧ e.body.takeRight 2 = "\x27s") →
      resolve_person language e = { e with dim := annotator_to_sys e.dim }) ∧
    (language ≠ "en" →
      resolve_person language e = { e with dim := annotator_to_sys e.dim }) := by
  refine ⟨?_, ?_, ?_⟩
  · intro hl hlen hsuf
    simp [resolve_person, ENGLISH_LANGUAGE_CODE, hl, hlen, hsuf]
  · intro hl hns
    simp only [resolve_person, ENGLISH_LANGUAGE_CODE, hl, if_true]
    rw [if_neg]
    exact fun h => hns ⟨h.1, h.2⟩
  · intro hl
    simp [resolve_person, ENGLISH_LANGUAGE_CODE, hl]

/-- Witness for C9: `Alice` with the possessive marker in English is
stripped, with the end offset reduced by 2. -/
theorem resolve_person_spec_w :
    resolve_person "en"
        { body := "Alice\x27s", start := 0, stop := 6,
          value := .str "Alice\x27s", dim := "person" } =
      { body := "Alice", start := 0, stop := 4, value := .str "Alice",
        dim := "sys_person" } :=
  ((resolve_person_spec "en"
      { body := "Alice\x27s", start := 0, stop := 6,
        value := .str "Alice\x27s", dim := "person" }).1
    rfl (by decide) (by decide)).trans (by decide)

/-- Helper: `has_overlap` is symmetric. -/
theorem has_overlap_comm (a b : Span) : has_overlap a b = has_overlap b a := by
  simp [has_overlap, Bool.or_comm]

/-- Helper: membership in the stable descending insertion. -/
theorem mem_insertDesc (a s : Span) :
    ∀ (l : List Span), a ∈ insertDesc s l ↔ a = s ∨ a ∈ l := by
  intro l
  induction l with
  | nil => simp [insertDesc]
  | cons t rest ih =>
    by_cases h : s.start < t.start ∨ (s.start = t.start ∧ s.stop < t.stop)
    · simp only [insertDesc, if_pos h, List.mem_cons, ih]
      tauto
    · simp only [insertDesc, if_neg h, List.mem_cons]

/-- Helper: the descending sort is a permutation as far as membership goes. -/
theorem mem_sortSpansDesc (a : Span) :
    ∀ (l : List Span), a ∈ sortSpansDesc l ↔ a ∈ l := by
  intro l
  induction l with
  | nil => simp [sortSpansDesc]
  | cons s rest ih => simp [sortSpansDesc, mem_insertDesc, ih]

/-- Helper: the greedy selection loop only ever appends, so already
selected spans survive. -/
theorem greedy_subset : ∀ (l sel : List Span),
    sel ⊆ l.foldl
      (fun selected s =>
        if selected.any (fun t => has_overlap s t) then selected else selected ++ [s])
      sel := by
  intro l
  induction l with
  | nil => intro sel; simp
  | cons x xs ih =>
    intro sel
    simp only [List.foldl_cons]
    intro a ha
    refine ih _ ?_
    by_cases h : sel.any (fun t => has_overlap x t) = true
    · rw [if_pos h]; exact ha
    · rw [if_neg h]; exact List.mem_append_left _ ha

/-- Helper: the greedy selection loop preserves pairwise disjointness of
the selection. -/
theorem greedy_pairwise : ∀ (l sel : List Span),
    sel.Pairwise (fun a b => has_overlap a b = false) →
    (l.foldl
      (fun selected s =>
        if selected.any (fun t => has_overlap s t) then selected else selected ++ [s])
      sel).Pairwise (fun a b => has_overlap a b = false) := by
  intro l
  induction l with
  | nil => intro sel h; simpa using h
  | cons x xs ih =>
    intro sel h
    simp only [List.foldl_cons]
    apply ih
    by_cases hx : sel.any (fun t => has_overlap x t) = true
    · rw [if_pos hx]; exact h
    · rw [if_neg hx]
      rw [List.pairwise_append]
      refine ⟨h, List.pairwise_singleton _ _, ?_⟩
      intro a ha b hb
      rw [List.mem_singleton] at hb
      subst hb
      rw [has_overlap_comm]
      have hx' : sel.any (fun t => has_overlap b t) = false := by
        simpa using hx
      rw [List.any_eq_false] at hx'
      simpa using hx' a ha

/-- Helper: every traversed span either survives into the selection or
overlaps one of the selected spans. -/
theorem greedy_cover : ∀ (l sel : List Span) (s : Span), s ∈ l →
    s ∉ l.foldl
      (fun selected s =>
        if selected.any (fun t => has_overlap s t) then selected else selected ++ [s])
      sel →
    ∃ t ∈ l.foldl
      (fun selected s =>
        if selected.any (fun t => has_overlap s t) then selected else selected ++ [s])
      sel, has_overlap s t = true := by
  intro l
  induction l with
  | nil => intro sel s hs; simp at hs
  | cons x xs ih =>
    intro sel s hs hnot
    simp only [List.foldl_cons] at hnot ⊢
    rcases List.mem_cons.mp hs with rfl | hs'
    · by_cases hx : sel.any (fun t => has_overlap s t) = true
      · rw [if_pos hx] at hnot ⊢
        obtain ⟨t, ht, hov⟩ := List.any_eq_true.mp hx
        exact ⟨t, greedy_subset xs sel ht, hov⟩
      · rw [if_neg hx] at hnot ⊢
        exact absurd
          (greedy_subset xs _ (List.mem_append_right _ (List.mem_singleton.mpr rfl)))
          hnot
    · exact ih _ s hs' hnot

/-- Claim C6: the selection of `_get_largest_non_overlapping_candidates`
is pairwise non-overlapping, and every input span not selected overlaps at
least one selected span. -/
theorem get_largest_non_overlapping_spec (spans : List Span) :
    (get_largest_non_overlapping spans).Pairwise
      (fun a b => has_overlap a b = false) ∧
    ∀ s ∈ spans, s ∉ get_largest_non_overlapping spans →
      ∃ t ∈ get_largest_non_overlapping spans, has_overlap s t = true := by
  constructor
  · exact greedy_pairwise (sortSpansDesc spans) [] List.Pairwise.nil
  · intro s hs hnot
    exact greedy_cover (sortSpansDesc spans) [] s
      ((mem_sortSpansDesc s spans).mpr hs) hnot

/-- Witness for C6: the discarded span overlaps the selected one. -/
theorem get_largest_non_overlapping_spec_w :
    ∃ t ∈ get_largest_non_overlapping [⟨0, 5⟩, ⟨2, 3⟩],
      has_overlap ⟨0, 5⟩ t = true :=
  (get_largest_non_overlapping_spec [⟨0, 5⟩, ⟨2, 3⟩]).2 ⟨0, 5⟩
    (by decide) (by decide)

/-- Helper: lookup on a cons cell, stated with propositional equality. -/
theorem lookup_cons {β : Type} (p k : String) (v : β) (l : List (String × β)) :
    ((k, v) :: l).lookup p = if p = k then some v else l.lookup p := by
  by_cases h : p = k
  · rw [if_pos h]
    simp [List.lookup, h]
  · rw [if_neg h]
    have hb : (p == k) = false := by simp [h]
    simp [List.lookup, hb]

/-- Helper: looking up the freshly initialized all-empty file map. -/
theorem lookup_init (p : String) : ∀ (paths : List String), p ∈ paths →
    (paths.map (fun q => (q, ([] : List String)))).lookup p = some [] := by
  intro paths
  induction paths with
  | nil => intro h; simp at h
  | cons q qs ih =>
    intro hp
    rw [List.map_cons, lookup_cons]
    by_cases hq : p = q
    · simp [hq]
    · rcases List.mem_cons.mp hp with h | h
      · exact absurd h hq
      · simp [hq, ih h]

/-- Helper: one rule's overwrite pass over the map, through lookup. -/
theorem lookup_update (cond : String → Bool) (ents : List String) (p : String) :
    ∀ (m : List (String × List String)),
      (m.map (fun pe => if cond pe.1 then (pe.1, ents) else pe)).lookup p
        = (m.lookup p).map (fun v => if cond p then ents else v) := by
  intro m
  induction m with
  | nil => simp
  | cons kv rest ih =>
    obtain ⟨k, v⟩ := kv
    simp only [List.map_cons]
    by_cases hc : cond k = true
    · rw [if_pos hc, lookup_cons, lookup_cons]
      by_cases hpk : p = k
      · simp [hpk, hc]
      · simp [hpk, ih]
    · rw [if_neg hc, lookup_cons, lookup_cons]
      by_cases hpk : p = k
      · simp [hpk, hc]
      · simp [hpk, ih]

/-- Helper: the whole rule fold over the map, through lookup. -/
theorem lookup_fold (matchp : String → String → Bool) (supported : List String)
    (p : String) :
    ∀ (rules : List ARule) (m : List (String × List String)),
      ((rules.foldl
        (fun m r =>
          m.map (fun pe =>
            if matchp (get_pattern r) pe.1 then (pe.1, get_entities supported r)
            else pe))
        m).lookup p)
      = (m.lookup p).map
          (fun v => rules.foldl
            (fun acc r =>
              if matchp (get_pattern r) p then get_entities supported r else acc)
            v) := by
  intro rules
  induction rules with
  | nil => intro m; simp
  | cons r rs ih =>
    intro m
    simp only [List.foldl_cons]
    rw [ih, lookup_update (fun q => matchp (get_pattern r) q)
      (get_entities supported r) p]
    rw [Option.map_map]
    rfl

/-- Helper: the last element of a cons through `getLast?`. -/
theorem getLast?_cons_getD {α : Type} :
    ∀ (l : List α) (a : α), (a :: l).getLast? = some ((l.getLast?).getD a) := by
  intro l
  induction l with
  | nil => intro a; rfl
  | cons b l ih =>
    intro a
    rw [List.getLast?_cons_cons, ih b]
    simp

/-- Helper: a conditional-overwrite fold equals the last passing element. -/
theorem foldl_last {α β : Type} (cond : α → Bool) (ents : α → β) :
    ∀ (rules : List α) (v : β),
      rules.foldl (fun acc r => if cond r then ents r else acc) v
        = (((rules.filter cond).getLast?).map ents).getD v := by
  intro rules
  induction rules with
  | nil => intro v; simp
  | cons r rs ih =>
    intro v
    by_cases hc : cond r = true
    · simp only [List.foldl_cons, List.filter_cons, hc, if_pos]
      rw [ih, getLast?_cons_getD]
      cases h : (rs.filter cond).getLast? <;> simp [h]
    · simp only [List.foldl_cons, List.filter_cons, hc, if_neg]
      rw [ih]
      simp [hc]

/-- Claim C3: in the file-to-entities map every known path starts at the
empty entity list and each rule, in declaration order, overwrites the
entry of every matching path, so a path matched by several rules ends with
exactly the resolved entities of the last matching rule. -/
theorem get_file_entities_map_spec (matchp : String → String → Bool)
    (supported : List String) (all_paths : List String) (rules : List ARule)
    (p : String) (hp : p ∈ all_paths) :
    (get_file_entities_map matchp supported all_paths rules).lookup p =
      some ((((rules.filter (fun r => matchp (get_pattern r) p)).getLast?).map
        (get_entities supported)).getD []) := by
  unfold get_file_entities_map
  rw [lookup_fold, lookup_init p all_paths hp]
  simp only [Option.map_some']
  rw [foldl_last (fun r => matchp (get_pattern r) p) (get_entities supported)]

/-- Witness for C3: two rules match the same path, the first resolving to
`sys_time` and the second to `sys_number`; the final map holds exactly
`sys_number`. -/
theorem get_file_entities_map_spec_w :
    (get_file_entities_map (fun _ _ => true) ["sys_time", "sys_number"]
        ["app/d/i/train.txt"]
        [{ domains := "d", intents := "i", files := "train.txt",
           entities := "sys_time" },
         { domains := "d", intents := "i", files := "train.txt",
           entities := "sys_number" }]).lookup "app/d/i/train.txt"
      = some ["sys_number"] :=
  (get_file_entities_map_spec (fun _ _ => true) ["sys_time", "sys_number"]
    ["app/d/i/train.txt"]
    [{ domains := "d", intents := "i", files := "train.txt",
       entities := "sys_time" },
     { domains := "d", intents := "i", files := "train.txt",
       entities := "sys_number" }]
    "app/d/i/train.txt" (by decide)).trans (by decide)

/-- Helper: the substring scan never loses an accumulated candidate and
never shrinks its body length. -/
theorem scan_tier_mono (e : SEntity) (t : String) (itr : Bool) :
    ∀ (cs : List Candidate) (lc : Candidate) (rt : String),
      ∃ lc' rt', scan_tier e t itr (some (lc, rt)) cs = some (lc', rt') ∧
        lc.body.length ≤ lc'.body.length := by
  intro cs
  induction cs with
  | nil => intro lc rt; exact ⟨lc, rt, rfl, le_refl _⟩
  | cons c rest ih =>
    intro lc rt
    simp only [scan_tier]
    split
    · next hcond =>
      obtain ⟨lc', rt', heq, hle⟩ := ih c t
      refine ⟨lc', rt', heq, ?_⟩
      simp only [Bool.and_eq_true, decide_eq_true_eq] at hcond
      exact le_trans (le_of_lt hcond.2) hle
    · exact ih lc rt

/-- Helper: the substring scan result is the incoming accumulator or a
matching candidate from the scanned list, resolved at the scanned tier. -/
theorem scan_tier_provenance (e : SEntity) (t : String) (itr : Bool) :
    ∀ (cs : List Candidate) (acc : Option (Candidate × String)) (lc : Candidate)
      (rt : String),
      scan_tier e t itr acc cs = some (lc, rt) →
      acc = some (lc, rt) ∨ (lc ∈ cs ∧ substr_match e itr t lc ∧ rt = t) := by
  intro cs
  induction cs with
  | nil => intro acc lc rt h; exact Or.inl h
  | cons c rest ih =>
    intro acc lc rt h
    simp only [scan_tier] at h
    rcases ih _ lc rt h with hacc | ⟨hmem, hm, hrt⟩
    · split at hacc
      · next hcond =>
        obtain ⟨heq1, heq2⟩ := Prod.mk.injEq .. ▸ Option.some.inj hacc
        simp only [Bool.and_eq_true, decide_eq_true_eq] at hcond
        subst heq1
        subst heq2
        exact Or.inr ⟨List.mem_cons_self c rest, ⟨hcond.1.1, hcond.1.2⟩, rfl⟩
      · exact Or.inl hacc
    · exact Or.inr ⟨List.mem_cons_of_mem c hmem, hm, hrt⟩

/-- Helper: any matching candidate in the scanned list forces the scan to
end in a candidate at least as long. -/
theorem scan_tier_cover (e : SEntity) (t : String) (itr : Bool) :
    ∀ (cs : List Candidate) (acc : Option (Candidate × String)) (c : Candidate),
      c ∈ cs → substr_match e itr t c →
      ∃ lc' rt', scan_tier e t itr acc cs = some (lc', rt') ∧
        c.body.length ≤ lc'.body.length := by
  intro cs
  induction cs with
  | nil => intro acc c hc; simp at hc
  | cons x rest ih =>
    intro acc c hc hm
    simp only [scan_tier]
    rcases List.mem_cons.mp hc with rfl | hc'
    · split
      · next hcond => exact scan_tier_mono e t itr rest c t
      · next hcond =>
        cases acc with
        | none =>
          exfalso
          apply hcond
          simp [hm.1, hm.2]
        | some lcp =>
          obtain ⟨lc0, rt0⟩ := lcp
          obtain ⟨lc', rt', heq, hle⟩ := scan_tier_mono e t itr rest lc0 rt0
          refine ⟨lc', rt', heq, le_trans ?_ hle⟩
          by_contra hlt
          apply hcond
          simp only [Bool.and_eq_true, decide_eq_true_eq]
          exact ⟨⟨hm.1, hm.2⟩, lt_of_not_le hlt⟩
    · exact ih _ c hc' hm

/-- Helper: the tier fold never loses an accumulated candidate and never
shrinks its body length. -/
theorem tiers_mono (e : SEntity) (itr : Bool) (cs : List Candidate) :
    ∀ (tiers : List String) (lc : Candidate) (rt : String),
      ∃ lc' rt',
        tiers.foldl (fun acc t => scan_tier e t itr acc cs) (some (lc, rt))
          = some (lc', rt') ∧ lc.body.length ≤ lc'.body.length := by
  intro tiers
  induction tiers with
  | nil => intro lc rt; exact ⟨lc, rt, rfl, le_refl _⟩
  | cons t ts ih =>
    intro lc rt
    simp only [List.foldl_cons]
    obtain ⟨lc1, rt1, heq1, hle1⟩ := scan_tier_mono e t itr cs lc rt
    rw [heq1]
    obtain ⟨lc2, rt2, heq2, hle2⟩ := ih lc1 rt1
    exact ⟨lc2, rt2, heq2, le_trans hle1 hle2⟩

/-- Helper: tier-fold provenance: a produced candidate comes from the
accumulator or matches one of the scanned tiers. -/
theorem tiers_provenance (e : SEntity) (itr : Bool) (cs : List Candidate) :
    ∀ (tiers : List String) (acc : Option (Candidate × String)) (lc : Candidate)
      (rt : String),
      tiers.foldl (fun acc t => scan_tier e t itr acc cs) acc = some (lc, rt) →
      acc = some (lc, rt) ∨ (rt ∈ tiers ∧ lc ∈ cs ∧ substr_match e itr rt lc) := by
  intro tiers
  induction tiers with
  | nil => intro acc lc rt h; exact Or.inl h
  | cons t ts ih =>
    intro acc lc rt h
    simp only [List.foldl_cons] at h
    rcases ih _ lc rt h with hacc | ⟨hrt, hmem, hm⟩
    · rcases scan_tier_provenance e t itr cs acc lc rt hacc with h1 | ⟨hmem, hm, hrt⟩
      · exact Or.inl h1
      · refine Or.inr ⟨?_, hmem, ?_⟩
        · rw [hrt]; exact List.mem_cons_self t ts
        · rw [hrt]; exact hm
    · exact Or.inr ⟨List.mem_cons_of_mem t hrt, hmem, hm⟩

/-- Helper: tier-fold coverage: any candidate matching any scanned tier
forces the fold to end in a candidate at least as long. -/
theorem tiers_cover (e : SEntity) (itr : Bool) (cs : List Candidate) :
    ∀ (tiers : List String) (acc : Option (Candidate × String)) (t : String)
      (c : Candidate),
      t ∈ tiers → c ∈ cs → substr_match e itr t c →
      ∃ lc' rt',
        tiers.foldl (fun acc t => scan_tier e t itr acc cs) acc
          = some (lc', rt') ∧ c.body.length ≤ lc'.body.length := by
  intro tiers
  induction tiers with
  | nil => intro acc t c ht; simp at ht
  | cons t0 ts ih =>
    intro acc t c ht hc hm
    simp only [List.foldl_cons]
    rcases List.mem_cons.mp ht with rfl | ht'
    · obtain ⟨lc1, rt1, heq1, hle1⟩ := scan_tier_cover e t itr cs acc c hc hm
      rw [heq1]
      obtain ⟨lc2, rt2, heq2, hle2⟩ := tiers_mono e itr cs ts lc1 rt1
      exact ⟨lc2, rt2, heq2, le_trans hle1 hle2⟩
    · exact ih _ t c ht' hc hm

/-- Claim C4 (amended): the largest-substring fallback fails exactly when
no candidate matches any allowed type; when it succeeds, the returned
entity is rewritten from a matching candidate whose body length is maximal
among the matching candidates of all allowed types jointly (not per tier),
with the span offset by the raw entity's original start and the
candidate's value and resolved type adopted. -/
theorem resolve_largest_substring_spec (e : SEntity) (cs : List Candidate)
    (ets : List String) (itr : Bool) :
    (resolve_largest_substring e cs ets itr = none ↔
      ∀ t ∈ ets, ∀ c ∈ cs, ¬substr_match e itr t c) ∧
    (∀ e', resolve_largest_substring e cs ets itr = some e' →
      ∃ c ∈ cs, ∃ t ∈ ets, substr_match e itr t c ∧
        (∀ t' ∈ ets, ∀ c' ∈ cs, substr_match e itr t' c' →
          c'.body.length ≤ c.body.length) ∧
        e' = { e with
               body := c.body,
               start := e.start + c.start,
               stop := e.start + c.stop,
               value := .duck c.value,
               dim := t }) := by
  constructor
  · constructor
    · intro hnone t ht c hc hm
      obtain ⟨lc', rt', heq, _⟩ := tiers_cover e itr cs ets none t c ht hc hm
      unfold resolve_largest_substring at hnone
      rw [heq] at hnone
      simp at hnone
    · intro hno
      unfold resolve_largest_substring
      cases hf : ets.foldl (fun acc t => scan_tier e t itr acc cs) none with
      | none => rfl
      | some lcrt =>
        obtain ⟨lc, rt⟩ := lcrt
        rcases tiers_provenance e itr cs ets none lc rt hf with h1 | ⟨hrt, hmem, hm⟩
        · exact absurd h1 (by simp)
        · exact absurd hm (hno rt hrt lc hmem)
  · intro e' he'
    unfold resolve_largest_substring at he'
    cases hf : ets.foldl (fun acc t => scan_tier e t itr acc cs) none with
    | none => rw [hf] at he'; simp at he'
    | some lcrt =>
      obtain ⟨lc, rt⟩ := lcrt
      rw [hf] at he'
      simp only [Option.some.injEq] at he'
      rcases tiers_provenance e itr cs ets none lc rt hf with h1 | ⟨hrt, hmem, hm⟩
      · exact absurd h1 (by simp)
      · refine ⟨lc, hmem, rt, hrt, hm, ?_, he'.symm⟩
        intro t' ht' c' hc' hm'
        obtain ⟨lc2, rt2, heq2, hle2⟩ := tiers_cover e itr cs ets none t' c' ht' hc' hm'
        rw [hf] at heq2
        obtain ⟨h3, _⟩ := Prod.mk.injEq .. ▸ Option.some.inj heq2
        rw [← h3] at hle2
        exact hle2

/-- Counterexample for C4: with a short duration candidate and a longer
plain time candidate the source keeps the globally longest match and
resolves `sys_time`, while the per-tier reading of the claim resolves the
duration tier first; the two disagree, and no exact match exists. -/
theorem resolve_largest_substring_cex :
    resolve_largest_substring nearly15 [cand_dur_2, cand_time_10]
        ["sys_duration", "sys_interval", "sys_time"] true ≠
      resolve_largest_substring_tiered nearly15 [cand_dur_2, cand_time_10]
        ["sys_duration", "sys_interval", "sys_time"] true ∧
    (resolve_largest_substring nearly15 [cand_dur_2, cand_time_10]
        ["sys_duration", "sys_interval", "sys_time"] true).map SEntity.dim
      = some "sys_time" ∧
    (resolve_largest_substring_tiered nearly15 [cand_dur_2, cand_time_10]
        ["sys_duration", "sys_interval", "sys_time"] true).map SEntity.dim
      = some "sys_duration" ∧
    resolve_time_exact_match nearly15 [cand_dur_2, cand_time_10]
        ["sys_duration", "sys_interval", "sys_time"] = none ∧
    (resolve_time_date nearly15 [cand_dur_2, cand_time_10] none).map SEntity.dim
      = some "sys_time" := by
  decide

/-- Witness for C4: the spec's temporal example, where the duration
candidate covering exactly the substring `15 minutes` is the unique match
and the span is rewritten to cover it. -/
theorem resolve_largest_substring_spec_w :
    ∃ c ∈ [cand_dur_10], ∃ t ∈ ["sys_duration", "sys_interval", "sys_time"],
      substr_match nearly15 true t c ∧
      (∀ t' ∈ ["sys_duration", "sys_interval", "sys_time"], ∀ c' ∈ [cand_dur_10],
        substr_match nearly15 true t' c' → c'.body.length ≤ c.body.length) ∧
      ({ body := "15 minutes", start := 10, stop := 20,
         value := .duck { vtype := "value", value := .int 15 },
         dim := "sys_duration" } : SEntity)
        = { nearly15 with
            body := c.body,
            start := nearly15.start + c.start,
            stop := nearly15.start + c.stop,
            value := .duck c.value,
            dim := t } :=
  (resolve_largest_substring_spec nearly15 [cand_dur_10]
    ["sys_duration", "sys_interval", "sys_time"] true).2
    { body := "15 minutes", start := 10, stop := 20,
      value := .duck { vtype := "value", value := .int 15 }, dim := "sys_duration" }
    (by decide)

/-- Claim C5 (code bug evidence): with candidates present but none of type
`sys_number`, `max` runs on an empty `possible_values` list and the call
ends in `ValueError` instead of dropping the entity; the positive cases
behave as claimed: a fractional candidate resolves immediately to its
value over 100 (`50.5% ↦ 0.505`), integer candidates resolve to the
maximum over 100 (`max 30 50 ↦ 0.5`), and an empty candidate list drops
the entity. -/
theorem resolve_percent_bug :
    resolve_percent pct_e [pct_cand_time] = .valueError ∧
    resolve_percent pct_e [pct_cand_float] =
      .resolved { pct_e with dim := "sys_percent", value := .num (101 / 200) } ∧
    resolve_percent pct_e [pct_cand_30, pct_cand_50] =
      .resolved { pct_e with dim := "sys_percent", value := .num (1 / 2) } ∧
    resolve_percent pct_e [] = .dropped := by
  refine ⟨by decide, ?_, ?_, by decide⟩
  · have hmapP : annotator_to_sys "percent" = "sys_percent" := by decide
    simp [resolve_percent, percent_loop, pct_e, pct_cand_float, hmapP]
    norm_num
  · have hmapP : annotator_to_sys "percent" = "sys_percent" := by decide
    have hmax : ([(30 : Int), 50].max?) = some 50 := by decide
    simp [resolve_percent, percent_loop, pct_e, pct_cand_30, pct_cand_50, hmapP, hmax]
    norm_num

/-- Helper: the exact-match scan of one quantity tier finds the first
candidate with matching dimension and exact body. -/
theorem quantity_exact_scan_eq (e : SEntity) (t : String) :
    ∀ (cs : List Candidate),
      quantity_exact_scan e t cs =
        (cs.find? (fun c => decide (c.dim = t) && decide (c.body = e.body))).map
          (fun c => { e with value := .duck c.value, dim := annotator_to_sys t }) := by
  intro cs
  induction cs with
  | nil => rfl
  | cons c rest ih =>
    by_cases h1 : c.dim = t
    · by_cases h2 : c.body = e.body
      · simp [quantity_exact_scan, h1, h2, List.find?_cons]
      · simp [quantity_exact_scan, h1, h2, List.find?_cons, ih]
    · simp [quantity_exact_scan, h1, List.find?_cons, ih]

/-- Claim C8: `_resolve_quantity` always returns an entity: with zero
candidates it is retyped `sys_other-quantity`; an exact distance match
takes priority and resolves to `sys_distance`; and when both the exact
and the largest-substring phases fail the entity is still returned,
retyped `sys_other-quantity`. -/
theorem resolve_quantity_spec (e : SEntity) (cs : List Candidate) :
    (∃ e', resolve_quantity e cs = some e') ∧
    resolve_quantity e [] = some { e with dim := "sys_other-quantity" } ∧
    (∀ c, cs.find? (fun c => decide (c.dim = "distance") && decide (c.body = e.body))
        = some c →
      resolve_quantity e cs =
        some { e with value := .duck c.value, dim := "sys_distance" }) ∧
    (quantity_exact e cs = none →
      resolve_largest_substring e cs ["distance", "quantity"] false = none →
      resolve_quantity e cs = some { e with dim := "sys_other-quantity" }) := by
  refine ⟨?_, rfl, ?_, ?_⟩
  · by_cases hemp : cs.isEmpty = true
    · exact ⟨{ e with dim := "sys_other-quantity" }, by simp [resolve_quantity, hemp]⟩
    · cases hq : quantity_exact e cs with
      | some e' => exact ⟨e', by simp [resolve_quantity, hemp, hq]⟩
      | none =>
        cases hs : resolve_largest_substring e cs ["distance", "quantity"] false with
        | some e' => exact ⟨e', by simp [resolve_quantity, hemp, hq, hs]⟩
        | none =>
          exact ⟨{ e with dim := "sys_other-quantity" },
            by simp [resolve_quantity, hemp, hq, hs]⟩
  · intro c hfind
    have hne : cs ≠ [] := by
      intro h
      rw [h] at hfind
      simp at hfind
    have hemp : ¬(cs.isEmpty = true) := by
      simpa [List.isEmpty_iff] using hne
    have hmap : annotator_to_sys "distance" = "sys_distance" := by decide
    have hqe : quantity_exact e cs =
        some { e with value := .duck c.value, dim := "sys_distance" } := by
      unfold quantity_exact
      rw [quantity_exact_scan_eq, hfind]
      simp [hmap]
    simp [resolve_quantity, hemp, hqe]
  · intro hq hs
    by_cases hemp : cs.isEmpty = true
    · simp [resolve_quantity, hemp]
    · simp [resolve_quantity, hemp, hq, hs]

/-- Witness for C8: an exact distance candidate resolves with priority. -/
theorem resolve_quantity_spec_w :
    resolve_quantity qty_e [qty_c] =
      some { qty_e with value := .duck qty_c.value, dim := "sys_distance" } :=
  (resolve_quantity_spec qty_e [qty_c]).2.2.1 qty_c (by decide)

/-- Helper: the wildcard rule's entity field resolves to the sentinel. -/
theorem get_entities_wildcard (supported : List String) :
    get_entities supported wildcard_rule = ["*"] := rfl

/-- Helper: the wildcard rule's path pattern source string. -/
theorem get_pattern_wildcard : get_pattern wildcard_rule = ".*/.*/.*/.*" := by
  decide

/-- Helper: wildcard unannotation with the supported-only flag off removes
every entity. -/
theorem unannotate_query_wildcard_all (supported : List String)
    (ents : List QEntity) :
    unannotate_query ents ["*"] false supported = [] := by
  rw [unannotate_query_eq_filter]
  simp

/-- Helper: with the single all-wildcard rule and every path matching, the
file map sends every known path to the sentinel. -/
theorem wildcard_map (matchp : String → String → Bool) (supported : List String) :
    ∀ (paths : List String), (∀ p ∈ paths, matchp ".*/.*/.*/.*" p = true) →
      get_file_entities_map matchp supported paths [wildcard_rule]
        = paths.map (fun p => (p, (["*"] : List String))) := by
  intro paths hm
  unfold get_file_entities_map
  simp only [List.foldl_cons, List.foldl_nil, List.map_map]
  apply List.map_congr_left
  intro p hp
  have h1 : matchp (get_pattern wildcard_rule) p = true := by
    rw [get_pattern_wildcard]
    exact hm p hp
  simp [Function.comp, h1, get_entities_wildcard]

/-- Claim C10: `unannotate` with `unannotate_all=True` installs the single
all-wildcard rule, forces the supported-entities-only flag off, and every
parsed example of every known path ends with an empty entity list, the
unsupported entity types included. -/
theorem unannotate_all_spec (matchp : String → String → Bool)
    (supported : List String) (all_paths : List String)
    (queriesOf : String → List (List QEntity)) (config : AConfig)
    (hm : ∀ p ∈ all_paths, matchp ".*/.*/.*/.*" p = true) :
    (apply_unannotate_all config true).unannotate_rules = [wildcard_rule] ∧
    (apply_unannotate_all config true).unannotate_supported_entities_only = false ∧
    unannotate_run matchp supported all_paths queriesOf config true =
      some (all_paths.map
        (fun p => (p, (queriesOf p).map (fun _ => ([] : List QEntity))))) := by
  refine ⟨rfl, rfl, ?_⟩
  have hrun : unannotate_run matchp supported all_paths queriesOf config true =
      some (modify_queries_unannotate supported
        (get_file_entities_map matchp supported all_paths [wildcard_rule])
        queriesOf false) := rfl
  rw [hrun, wildcard_map matchp supported all_paths hm]
  unfold modify_queries_unannotate
  rw [List.filter_eq_self.mpr ?hall]
  case hall =>
    intro a ha
    obtain ⟨p, hp, rfl⟩ := List.mem_map.mp ha
    simp
  rw [List.map_map]
  congr 1
  apply List.map_congr_left
  intro p hp
  simp only [Function.comp]
  congr 1
  apply List.map_congr_left
  intro ents hents
  exact unannotate_query_wildcard_all supported ents

/-- Witness for C10: one known path, one parsed example with a supported
and an unsupported entity; the run empties the example's entity list. -/
theorem unannotate_all_spec_w :
    unannotate_run (fun _ _ => true) ["sys_time"] ["a/b/c/d.txt"]
        (fun _ => [[⟨⟨0, 1⟩, "sys_time"⟩, ⟨⟨2, 3⟩, "sys_org"⟩]])
        { unannotate_rules := [], unannotate_supported_entities_only := true } true
      = some [("a/b/c/d.txt", [[]])] :=
  ((unannotate_all_spec (fun _ _ => true) ["sys_time"] ["a/b/c/d.txt"]
      (fun _ => [[⟨⟨0, 1⟩, "sys_time"⟩, ⟨⟨2, 3⟩, "sys_org"⟩]])
      { unannotate_rules := [], unannotate_supported_entities_only := true }
      (by decide)).2.2).trans (by decide)

end Mindmeld
